import Mathlib

/-!
Verification of the contextual-bandit transcript generator
(`scripts/transcripts.py`) against its specification.

Strings are modelled as `List Char`; Python's `str.lower` as mapping
`Char.toLower`, `str.startswith` as `List.isPrefixOf`, the `in` substring
test as `containsSub`, and `"\n".join` as `List.intercalate ['\n']`.
CSV rows are modelled as a structure holding the four fields the script
reads (`row.get(k, '')` over the keys `TrialType`, `context`, `choice`,
`reward`); a missing key is represented by the empty string value.
-/

namespace Transcripts

/-- A CSV row as seen by the script: the values of the four fields it reads,
with an absent key represented by the empty string (Python `row.get(k, '')`). -/
structure Row where
  trialType : List Char
  context : List Char
  choice : List Char
  reward : List Char
deriving DecidableEq

/-- The trial dictionary built by `parse_participant_data` (lines 68-73):
keys `trial_num`, `context`, `choice` (holding the mapped action), `reward`. -/
structure Trial where
  trial_num : Nat
  context : List Char
  choice : List Char
  reward : List Char
deriving DecidableEq

/-- Python's substring test `needle in haystack`. -/
def containsSub (needle : List Char) : List Char → Bool
  | [] => needle.isEmpty
  | c :: rest => needle.isPrefixOf (c :: rest) || containsSub needle rest

/-- Embedding of `map_choice_to_action` (lines 16-34): lowercase the choice,
then test for the substrings `red`, `white`, `black` in that order. -/
def map_choice_to_action (choice : List Char) : List Char :=
  let choice_lower := choice.map Char.toLower
  if containsSub "red".toList choice_lower then "Red".toList
  else if containsSub "white".toList choice_lower then "White".toList
  else if containsSub "black".toList choice_lower then "Black".toList
  else "Unknown".toList

/-- The candidate test of line 56:
`trial_type.startswith('pirate_') and not trial_type.startswith('practice_')`. -/
def candidate_trial (trial_type : List Char) : Bool :=
  List.isPrefixOf "pirate_".toList trial_type
    && !(List.isPrefixOf "practice_".toList trial_type)

/-- One iteration of the row loop of `parse_participant_data` (lines 52-73):
`trials` is the accumulator list; a retained row appends a trial dictionary
numbered `len(trials) + 1`. -/
def parseStep (trials : List Trial) (row : Row) : List Trial :=
  if candidate_trial row.trialType then
    let context := row.context
    let choice_raw := row.choice
    let reward := row.reward
    if context.isEmpty || choice_raw.isEmpty || reward.isEmpty then
      trials
    else
      trials ++ [{ trial_num := trials.length + 1
                   context := context
                   choice := map_choice_to_action choice_raw
                   reward := reward }]
  else
    trials

/-- Embedding of `parse_participant_data` (lines 37-75), with the CSV reader
abstracted to the row sequence it yields. -/
def parse_participant_data (rows : List Row) : List Trial :=
  List.foldl parseStep [] rows

/-- Embedding of `generate_transcript` (lines 78-106): build the line list by
appending, then join with newlines. -/
def generate_transcript (trials : List Trial) (participant_id : List Char) :
    List Char :=
  let lines : List (List Char) :=
    [ "PARTICIPANT: ".toList ++ participant_id,
      List.replicate 60 '=',
      "TASK: Contextual bandit experiment.".toList,
      "ACTIONS: Red, White, Black.".toList,
      "GOAL: Earn as many rewards as possible.".toList,
      List.replicate 60 '=',
      [] ]
  let lines := List.foldl (fun acc trial =>
    acc ++ [ "TRIAL ".toList ++ (Nat.repr trial.trial_num).toList,
             "CONTEXT: ".toList ++ trial.context,
             "AVAILABLE_ACTIONS: Red, White, Black".toList,
             "CHOOSE_ACTION: ".toList ++ trial.choice,
             "REWARD: ".toList ++ trial.reward,
             [] ]) lines trials
  List.intercalate ['\n'] lines

/-- The per-participant branch of `process_all_participants` (lines 136-148),
with file reading abstracted to the row sequence and the file write to an
optional returned artifact: zero retained trials means skip (`none`). -/
def process_participant (rows : List Row) (participant_id : List Char) :
    Option (List Char) :=
  let trials := parse_participant_data rows
  if trials.isEmpty then none
  else some (generate_transcript trials participant_id)

/-- The header block of the document grammar of spec section 6, transcribed
from the spec's words. -/
def headerLines (participant_id : List Char) : List (List Char) :=
  [ "PARTICIPANT: ".toList ++ participant_id,
    List.replicate 60 '=',
    "TASK: Contextual bandit experiment.".toList,
    "ACTIONS: Red, White, Black.".toList,
    "GOAL: Earn as many rewards as possible.".toList,
    List.replicate 60 '=',
    [] ]

/-- The five-line trial block of the document grammar of spec section 6
followed by one blank line, transcribed from the spec's words. -/
def trialLines (t : Trial) : List (List Char) :=
  [ "TRIAL ".toList ++ (Nat.repr t.trial_num).toList,
    "CONTEXT: ".toList ++ t.context,
    "AVAILABLE_ACTIONS: Red, White, Black".toList,
    "CHOOSE_ACTION: ".toList ++ t.choice,
    "REWARD: ".toList ++ t.reward,
    [] ]

/-- The retention test of lines 56-63 as a single predicate: candidate trial
and all three of `context`, `choice`, `reward` non-empty. -/
def keeps (row : Row) : Bool :=
  candidate_trial row.trialType
    && !(row.context.isEmpty || row.choice.isEmpty || row.reward.isEmpty)

/-- Spec section 8, first scenario: a `pirate_1` row with choice
`white_pirate` becomes trial 1 with action `White`. -/
example :
    parse_participant_data
      [{ trialType := "pirate_1".toList, context := "ctx_A".toList,
         choice := "white_pirate".toList, reward := "1".toList }]
      = [{ trial_num := 1, context := "ctx_A".toList,
           choice := "White".toList, reward := "1".toList }] := by decide

/-- Spec section 8, second scenario: a practice row is skipped and the
following pirate row becomes trial 1 with action `Black`. -/
example :
    parse_participant_data
      [{ trialType := "practice_1".toList, context := "c".toList,
         choice := "red_pirate".toList, reward := "1".toList },
       { trialType := "pirate_2".toList, context := "ctx_B".toList,
         choice := "black_pirate".toList, reward := "0".toList }]
      = [{ trial_num := 1, context := "ctx_B".toList,
           choice := "Black".toList, reward := "0".toList }] := by decide

/-- The substring test decides list infixhood. -/
theorem containsSub_iff (needle haystack : List Char) :
    containsSub needle haystack = true ↔ needle <:+: haystack := by
  induction haystack with
  | nil => simp [containsSub, List.isEmpty_iff]
  | cons c rest ih =>
    simp [containsSub, ih, List.infix_cons_iff]

/-- One loop iteration either appends the new trial dictionary (when the row
passes the full retention test) or leaves the accumulator unchanged. -/
theorem parseStep_eq (trials : List Trial) (row : Row) :
    parseStep trials row =
      if keeps row then
        trials ++ [{ trial_num := trials.length + 1, context := row.context,
                     choice := map_choice_to_action row.choice,
                     reward := row.reward }]
      else trials := by
  unfold parseStep keeps
  cases hc : candidate_trial row.trialType <;>
    cases he : (row.context.isEmpty || row.choice.isEmpty || row.reward.isEmpty) <;>
      simp [hc, he]

/-- C1: the choice mapping searches the lowercased string for `red`, `white`,
`black` in that priority order and returns the canonical label of the first
substring found, and `Unknown` when none of the three occurs. -/
theorem choice_mapping_spec (s : List Char) :
    map_choice_to_action s =
      if "red".toList <:+: s.map Char.toLower then "Red".toList
      else if "white".toList <:+: s.map Char.toLower then "White".toList
      else if "black".toList <:+: s.map Char.toLower then "Black".toList
      else "Unknown".toList := by
  unfold map_choice_to_action
  simp only [containsSub_iff]

/-- C2: a row is retained, appended to the output with its fields, if and only
if its `TrialType` starts with `pirate_` and not with `practice_` and the
`context`, `choice`, `reward` values are all non-empty; otherwise the row has
no effect on the output sequence. -/
theorem row_retention_spec (acc : List Trial) (row : Row) :
    parseStep acc row =
      if "pirate_".toList <+: row.trialType
          ∧ ¬ "practice_".toList <+: row.trialType
          ∧ row.context ≠ [] ∧ row.choice ≠ [] ∧ row.reward ≠ [] then
        acc ++ [{ trial_num := acc.length + 1, context := row.context,
                  choice := map_choice_to_action row.choice,
                  reward := row.reward }]
      else acc := by
  rw [parseStep_eq]
  have hiff : keeps row = true ↔
      ( "pirate_".toList <+: row.trialType
        ∧ ¬ "practice_".toList <+: row.trialType
        ∧ row.context ≠ [] ∧ row.choice ≠ [] ∧ row.reward ≠ []) := by
    unfold keeps candidate_trial
    simp [List.isEmpty_iff, and_assoc, Bool.eq_false_iff]
  by_cases hP : ( "pirate_".toList <+: row.trialType
      ∧ ¬ "practice_".toList <+: row.trialType
      ∧ row.context ≠ [] ∧ row.choice ≠ [] ∧ row.reward ≠ [])
  · rw [if_pos (hiff.mpr hP), if_pos hP]
  · rw [if_neg (fun hc => hP (hiff.mp hc)), if_neg hP]

/-- C7: the `practice_` exclusion is redundant: the candidate test agrees with
the bare `pirate_` prefix test on every string. -/
theorem candidate_practice_redundant (s : List Char) :
    candidate_trial s = List.isPrefixOf "pirate_".toList s := by
  unfold candidate_trial
  cases hp : List.isPrefixOf "pirate_".toList s with
  | false => simp
  | true =>
    have h1 : "pirate_".toList <+: s := List.isPrefixOf_iff_prefix.mp hp
    have h2 : ¬ "practice_".toList <+: s := by
      intro hpr
      rcases List.prefix_or_prefix_of_prefix h1 hpr with h | h
      · exact absurd h (by decide)
      · exact absurd h (by decide)
    have h3 : List.isPrefixOf "practice_".toList s = false := by
      rw [← Bool.not_eq_true, List.isPrefixOf_iff_prefix]
      exact h2
    rw [h3]
    simp

/-- Auxiliary: the row fold preserves the numbering invariant of the
accumulator. -/
theorem foldl_parseStep_numbering (rows : List Row) :
    ∀ acc : List Trial,
      acc.map Trial.trial_num = List.range' 1 acc.length →
      (List.foldl parseStep acc rows).map Trial.trial_num
        = List.range' 1 (List.foldl parseStep acc rows).length := by
  induction rows with
  | nil => intro acc h; simpa using h
  | cons r rest ih =>
    intro acc h
    simp only [List.foldl_cons]
    apply ih
    rw [parseStep_eq]
    cases hk : keeps r with
    | false => simpa [hk] using h
    | true =>
      simp [hk, h, List.range'_1_concat, Nat.add_comm]

/-- Auxiliary: the row fold appends exactly the data of the retained rows, in
encounter order. -/
theorem foldl_parseStep_content (rows : List Row) :
    ∀ acc : List Trial,
      (List.foldl parseStep acc rows).map (fun t => (t.context, t.choice, t.reward))
        = acc.map (fun t => (t.context, t.choice, t.reward))
          ++ (rows.filter keeps).map
              (fun r => (r.context, map_choice_to_action r.choice, r.reward)) := by
  induction rows with
  | nil => intro acc; simp
  | cons r rest ih =>
    intro acc
    simp only [List.foldl_cons]
    rw [ih, parseStep_eq]
    cases hk : keeps r with
    | false => simp [hk, List.filter_cons]
    | true => simp [hk, List.filter_cons]

/-- C3: the retained trials are numbered exactly 1..N in output order, over
retained trials only, and the output lists the retained rows' data in
encounter order. -/
theorem sequential_numbering_spec (rows : List Row) :
    (parse_participant_data rows).map Trial.trial_num
        = List.range' 1 (parse_participant_data rows).length
      ∧ (parse_participant_data rows).map (fun t => (t.context, t.choice, t.reward))
        = (rows.filter keeps).map
            (fun r => (r.context, map_choice_to_action r.choice, r.reward)) := by
  unfold parse_participant_data
  constructor
  · exact foldl_parseStep_numbering rows [] (by simp)
  · simpa using foldl_parseStep_content rows []

/-- Auxiliary: a left fold appending block after block equals the initial list
followed by the flattened blocks. -/
theorem foldl_append_blocks (f : Trial → List (List Char)) :
    ∀ (l : List Trial) (init : List (List Char)),
      List.foldl (fun acc t => acc ++ f t) init l = init ++ (l.map f).flatten := by
  intro l
  induction l with
  | nil => intro init; simp
  | cons t rest ih => intro init; simp [ih]

/-- Auxiliary: `generate_transcript` joins the header lines and the per-trial
blocks with newlines. -/
theorem generate_transcript_eq (trials : List Trial) (pid : List Char) :
    generate_transcript trials pid
      = List.intercalate ['\n']
          (headerLines pid ++ (trials.map trialLines).flatten) :=
  congrArg (List.intercalate ['\n'])
    (foldl_append_blocks trialLines trials (headerLines pid))

/-- C4: the rendered document is the newline-join of exactly the header block
lines followed by, per trial in order, the five trial lines and one blank
line. -/
theorem renderer_document_spec (trials : List Trial) (participant_id : List Char) :
    generate_transcript trials participant_id
      = List.intercalate ['\n']
          (headerLines participant_id ++ (trials.map trialLines).flatten) :=
  congrArg (List.intercalate ['\n'])
    (foldl_append_blocks trialLines trials (headerLines participant_id))

/-- C5: the renderer is deterministic: equal inputs give byte-identical
output. -/
theorem renderer_deterministic (trials₁ trials₂ : List Trial)
    (pid₁ pid₂ : List Char) (h₁ : trials₁ = trials₂) (h₂ : pid₁ = pid₂) :
    generate_transcript trials₁ pid₁ = generate_transcript trials₂ pid₂ := by
  rw [h₁, h₂]

/-- Witness for C5 at a concrete input. -/
theorem renderer_deterministic_witness :
    generate_transcript [] "p".toList = generate_transcript [] "p".toList :=
  renderer_deterministic [] [] "p".toList "p".toList rfl rfl

/-- C6: a participant with zero retained trials yields no artifact (a skip),
while the renderer alone on the empty sequence still produces the header-only
document. -/
theorem empty_trials_skipped (rows : List Row) (pid : List Char)
    (h : parse_participant_data rows = []) :
    process_participant rows pid = none
      ∧ generate_transcript [] pid = List.intercalate ['\n'] (headerLines pid) := by
  constructor
  · simp [process_participant, h]
  · rw [generate_transcript_eq]
    simp

/-- Witness for C6 at a concrete input. -/
theorem empty_trials_skipped_witness :
    process_participant [] "p".toList = none
      ∧ generate_transcript [] "p".toList
          = List.intercalate ['\n'] (headerLines "p".toList) :=
  empty_trials_skipped [] "p".toList rfl

/-- C8: the retention test only checks non-zero length, so a candidate row
whose `context`, `choice`, `reward` are non-empty whitespace is retained, with
`context` and `reward` passed through verbatim and the action derived from the
raw choice. -/
theorem whitespace_fields_retained (acc : List Trial) (row : Row)
    (hc : candidate_trial row.trialType = true)
    (h1 : row.context ≠ [] ∧ ∀ c ∈ row.context, c.isWhitespace)
    (h2 : row.choice ≠ [] ∧ ∀ c ∈ row.choice, c.isWhitespace)
    (h3 : row.reward ≠ [] ∧ ∀ c ∈ row.reward, c.isWhitespace) :
    parseStep acc row
      = acc ++ [{ trial_num := acc.length + 1, context := row.context,
                  choice := map_choice_to_action row.choice,
                  reward := row.reward }] := by
  have hk : keeps row = true := by
    unfold keeps
    simp [hc, List.isEmpty_iff, h1.1, h2.1, h3.1]
  rw [parseStep_eq, if_pos hk]

/-- Witness for C8 at a concrete all-whitespace row. -/
theorem whitespace_fields_retained_witness :
    parseStep [] { trialType := "pirate_7".toList, context := [' '],
                   choice := [' '], reward := [' '] }
      = [] ++ [{ trial_num := 1, context := [' '],
                 choice := map_choice_to_action [' '], reward := [' '] }] :=
  whitespace_fields_retained []
    { trialType := "pirate_7".toList, context := [' '],
      choice := [' '], reward := [' '] }
    (by decide) (by decide) (by decide) (by decide)

/-- Auxiliary: interspersing a separator keeps every original element. -/
theorem mem_intersperse_of_mem (sep x : List Char) :
    ∀ L : List (List Char), x ∈ L → x ∈ L.intersperse sep := by
  intro L
  induction L with
  | nil => simp
  | cons a rest ih =>
    intro hx
    cases rest with
    | nil => simpa using hx
    | cons b t =>
      rw [List.intersperse_cons₂]
      rcases List.mem_cons.mp hx with rfl | hx'
      · exact List.mem_cons_self _ _
      · exact List.mem_cons_of_mem _ (List.mem_cons_of_mem _ (ih hx'))

/-- Auxiliary: every line of a joined document occurs inside the join. -/
theorem infix_of_mem_intercalate {x sep : List Char} {L : List (List Char)}
    (h : x ∈ L) : x <:+: List.intercalate sep L := by
  unfold List.intercalate
  exact List.infix_of_mem_flatten (mem_intersperse_of_mem sep x L h)

/-- C9: the renderer emits each trial's action string verbatim in its
`CHOOSE_ACTION` line, with no validation against the three advertised
labels. -/
theorem action_rendered_verbatim (trials : List Trial) (pid : List Char)
    (t : Trial) (h : t ∈ trials) :
    "CHOOSE_ACTION: ".toList ++ t.choice <:+: generate_transcript trials pid := by
  rw [generate_transcript_eq]
  apply infix_of_mem_intercalate
  apply List.mem_append_right
  apply List.mem_flatten_of_mem (List.mem_map_of_mem trialLines h)
  simp [trialLines]

/-- Witness for C9: an `Unknown` action, outside the advertised labels,
appears verbatim in the rendered document. -/
theorem action_rendered_verbatim_witness :
    "CHOOSE_ACTION: ".toList ++ "Unknown".toList
      <:+: generate_transcript
            [{ trial_num := 1, context := "c".toList,
               choice := "Unknown".toList, reward := "1".toList }] "p".toList :=
  action_rendered_verbatim
    [{ trial_num := 1, context := "c".toList,
       choice := "Unknown".toList, reward := "1".toList }] "p".toList
    { trial_num := 1, context := "c".toList,
      choice := "Unknown".toList, reward := "1".toList }
    (List.mem_singleton.mpr rfl)

/-- Auxiliary: joining a two-or-more element list puts the separator after the
first element. -/
theorem intercalate_cons_of_ne_nil (sep a : List Char) (L : List (List Char))
    (hL : L ≠ []) :
    List.intercalate sep (a :: L) = a ++ sep ++ List.intercalate sep L := by
  cases L with
  | nil => exact absurd rfl hL
  | cons b t =>
    unfold List.intercalate
    rw [List.intersperse_cons₂]
    simp [List.append_assoc]

/-- Auxiliary: joining after appending a final line appends the separator and
that line. -/
theorem intercalate_append_last (sep x : List Char) :
    ∀ L : List (List Char), L ≠ [] →
      List.intercalate sep (L ++ [x]) = List.intercalate sep L ++ sep ++ x := by
  intro L
  induction L with
  | nil => intro hL; exact absurd rfl hL
  | cons a t ih =>
    intro _
    cases t with
    | nil => simp [List.intercalate, List.append_assoc]
    | cons b t' =>
      rw [List.cons_append,
        intercalate_cons_of_ne_nil sep a ((b :: t') ++ [x]) (by simp),
        ih (by simp),
        intercalate_cons_of_ne_nil sep a (b :: t') (by simp)]
      simp [List.append_assoc]

/-- Auxiliary: a newline-joined line list ending in a non-empty line followed
by one blank line ends in exactly one newline, and the character before that
newline is the last character of the non-empty line. -/
theorem intercalate_last_blank (L : List (List Char)) (x : List Char)
    (hL : L ≠ []) (hx : x ≠ []) :
    (List.intercalate ['\n'] (L ++ [x, []])).getLast? = some '\n'
      ∧ (List.intercalate ['\n'] (L ++ [x, []])).dropLast.getLast?
          = x.getLast? := by
  have h1 : L ++ [x, []] = (L ++ [x]) ++ [[]] := by simp
  have h2 : L ++ [x] ≠ [] := by simp
  rw [h1, intercalate_append_last ['\n'] [] (L ++ [x]) h2,
    intercalate_append_last ['\n'] x L hL]
  obtain ⟨y, hy⟩ : ∃ y, x.getLast? = some y := by
    cases hg : x.getLast? with
    | none => exact absurd (List.getLast?_eq_none_iff.mp hg) hx
    | some y => exact ⟨y, rfl⟩
  rw [List.append_nil]
  constructor
  · rw [List.getLast?_concat]
  · rw [List.dropLast_concat, List.getLast?_append, hy]
    rfl

/-- C10 counterexample: when the last trial's reward itself ends with a
newline, the rendered document ends with two newline characters, so it does
not end with exactly one newline. -/
theorem trailing_newline_counterexample :
    ¬ ((generate_transcript
          [{ trial_num := 1, context := "c".toList, choice := "Red".toList,
             reward := ['1', '\n'] }] "p".toList).getLast? = some '\n'
        ∧ ¬ (generate_transcript
          [{ trial_num := 1, context := "c".toList, choice := "Red".toList,
             reward := ['1', '\n'] }] "p".toList).dropLast.getLast?
              = some '\n') := by
  decide

/-- C10 amended: provided the trial sequence is empty or its last trial's
reward does not end with a newline character, the rendered document ends with
exactly one newline — its last character is a newline and the character before
it is not. -/
theorem trailing_newline_amended (trials : List Trial) (pid : List Char)
    (h : ∀ t ∈ trials.getLast?, t.reward.getLast? ≠ some '\n') :
    (generate_transcript trials pid).getLast? = some '\n'
      ∧ (generate_transcript trials pid).dropLast.getLast? ≠ some '\n' := by
  rw [generate_transcript_eq]
  rcases List.eq_nil_or_concat trials with rfl | ⟨ts, tl, hconc⟩
  · have hshape : headerLines pid ++ ((List.map trialLines []).flatten)
        = [ "PARTICIPANT: ".toList ++ pid,
            List.replicate 60 '=',
            "TASK: Contextual bandit experiment.".toList,
            "ACTIONS: Red, White, Black.".toList,
            "GOAL: Earn as many rewards as possible.".toList ]
          ++ [List.replicate 60 '=', []] := by
      simp [headerLines]
    rw [hshape]
    have hmain := intercalate_last_blank
      [ "PARTICIPANT: ".toList ++ pid,
        List.replicate 60 '=',
        "TASK: Contextual bandit experiment.".toList,
        "ACTIONS: Red, White, Black.".toList,
        "GOAL: Earn as many rewards as possible.".toList ]
      (List.replicate 60 '=') (by simp) (by simp)
    refine ⟨hmain.1, ?_⟩
    rw [hmain.2]
    decide
  · rw [List.concat_eq_append] at hconc
    subst hconc
    have hshape : headerLines pid ++ ((List.map trialLines (ts ++ [tl])).flatten)
        = (headerLines pid ++ (List.map trialLines ts).flatten
            ++ [ "TRIAL ".toList ++ (Nat.repr tl.trial_num).toList,
                 "CONTEXT: ".toList ++ tl.context,
                 "AVAILABLE_ACTIONS: Red, White, Black".toList,
                 "CHOOSE_ACTION: ".toList ++ tl.choice ])
          ++ [ "REWARD: ".toList ++ tl.reward, [] ] := by
      simp [trialLines, List.append_assoc]
    rw [hshape]
    have hrw : ( "REWARD: ".toList : List Char) ≠ [] := by decide
    have hne2 : "REWARD: ".toList ++ tl.reward ≠ [] := by
      intro hc
      exact hrw (List.append_eq_nil.mp hc).1
    have hmain := intercalate_last_blank
      (headerLines pid ++ (List.map trialLines ts).flatten
        ++ [ "TRIAL ".toList ++ (Nat.repr tl.trial_num).toList,
             "CONTEXT: ".toList ++ tl.context,
             "AVAILABLE_ACTIONS: Red, White, Black".toList,
             "CHOOSE_ACTION: ".toList ++ tl.choice ])
      ( "REWARD: ".toList ++ tl.reward) (by simp) hne2
    refine ⟨hmain.1, ?_⟩
    rw [hmain.2]
    have hlast : tl.reward.getLast? ≠ some '\n' := by
      apply h tl
      rw [List.getLast?_concat]
      rfl
    by_cases hnil : tl.reward = []
    · rw [hnil]
      decide
    · obtain ⟨y, hy⟩ : ∃ y, tl.reward.getLast? = some y := by
        cases hg : tl.reward.getLast? with
        | none => exact absurd (List.getLast?_eq_none_iff.mp hg) hnil
        | some y => exact ⟨y, rfl⟩
      rw [List.getLast?_append, hy]
      rw [hy] at hlast
      simpa using hlast

/-- Witness for the amended C10 at a concrete trial whose reward does not end
in a newline. -/
theorem trailing_newline_amended_witness :
    (generate_transcript
        [{ trial_num := 1, context := "c".toList, choice := "Red".toList,
           reward := "1".toList }] "p".toList).getLast? = some '\n'
      ∧ (generate_transcript
        [{ trial_num := 1, context := "c".toList, choice := "Red".toList,
           reward := "1".toList }] "p".toList).dropLast.getLast?
            ≠ some '\n' :=
  trailing_newline_amended
    [{ trial_num := 1, context := "c".toList, choice := "Red".toList,
       reward := "1".toList }] "p".toList
    (by intro t ht; simp at ht; subst ht; decide)

end Transcripts
